import Mathlib

/-!
Verification development for the AI diagram-generation service
(`server/routes.ts`, `shared/schema.ts`, `server/storage.ts` and the
client chart components).

The JSON data model, the response-text extraction (`/\x7b[\s\S]*\x7d/`
greedy brace match followed by `JSON.parse`), the zod chart schemas, the
in-memory chart store and the D3 layout fragments used by the chart
components are shallowly embedded below, and the behavioural properties
of the pipeline are proved about the embedding.

Modelling conventions:
* strings are `List Char`;
* JSON numbers are modelled as integers (none of the verified properties
  depends on decimal/exponent formatting of non-integral numbers);
* `JSON.stringify` escaping is modelled for the two structurally relevant
  characters (`"` and `\`) plus the common whitespace escapes; `\u`
  escapes of other control characters are elided;
* fallible operations return `Option`/`Except`.
-/

/-- A JSON value, as produced by `JSON.parse` and consumed by
`JSON.stringify`.  Object fields are kept in insertion order, matching
JavaScript object semantics. -/
inductive Json where
  | null : Json
  | bool (b : Bool) : Json
  | num (n : Int) : Json
  | str (s : List Char) : Json
  | arr (elems : List Json) : Json
  | obj (fields : List (List Char × Json)) : Json

namespace Json

/-- First-match field lookup, modelling JavaScript property access on a
parsed JSON object (`undefined` on non-objects and missing keys). -/
def getField : Json → List Char → Option Json
  | .obj fs, k => fs.lookup k
  | _, _ => none

end Json

/-- Model of `JSON.stringify` escaping of a single string character. -/
def escChar (c : Char) : List Char :=
  if c = '"' then ['\\', '"']
  else if c = '\\' then ['\\', '\\']
  else if c = '\n' then ['\\', 'n']
  else if c = '\r' then ['\\', 'r']
  else if c = '\t' then ['\\', 't']
  else [c]

/-- Model of `JSON.stringify` escaping of a string body. -/
def escString (s : List Char) : List Char := s.flatMap escChar

/-- Decimal digits of `n`, most significant first, computed with
structural fuel (`fuel > n` suffices). -/
def natDigitsAux : Nat → Nat → List Char
  | 0, _ => []
  | fuel+1, n =>
    if n < 10 then [Nat.digitChar n]
    else natDigitsAux fuel (n / 10) ++ [Nat.digitChar (n % 10)]

/-- Decimal representation of a natural number. -/
def natDigits (n : Nat) : List Char := natDigitsAux (n + 1) n

/-- Decimal representation of an integer, as emitted by `JSON.stringify`
for integral numbers. -/
def intChars (i : Int) : List Char :=
  if i < 0 then '-' :: natDigits i.natAbs else natDigits i.natAbs

/-- A JSON string literal: quote, escaped body, quote. -/
def strLit (s : List Char) : List Char := '"' :: (escString s ++ ['"'])

mutual

/-- Model of `JSON.stringify` (no indentation argument): compact serialization. -/
def stringifyVal : Json → List Char
  | .null => ("null".data)
  | .bool true => ("true".data)
  | .bool false => ("false".data)
  | .num i => intChars i
  | .str s => strLit s
  | .arr xs => '[' :: (stringifyElems xs ++ [']'])
  | .obj fs => '{' :: (stringifyFields fs ++ ['}'])

/-- Comma-joined serialization of array elements. -/
def stringifyElems : List Json → List Char
  | [] => []
  | [x] => stringifyVal x
  | x :: y :: ys => stringifyVal x ++ ',' :: stringifyElems (y :: ys)

/-- Comma-joined serialization of object members. -/
def stringifyFields : List (List Char × Json) → List Char
  | [] => []
  | [(k, v)] => strLit k ++ ':' :: stringifyVal v
  | (k, v) :: f :: fs => strLit k ++ ':' :: stringifyVal v ++ ',' :: stringifyFields (f :: fs)

end

/-- Model of `JSON.stringify` on a value. -/
def stringify (x : Json) : List Char := stringifyVal x

/-- JSON insignificant whitespace. -/
def isWsChar (c : Char) : Bool :=
  c = ' ' || c = '\n' || c = '\t' || c = '\r'

/-- Skip insignificant whitespace. -/
def skipWs : List Char → List Char
  | [] => []
  | c :: cs => if isWsChar c then skipWs cs else c :: cs

/-- Decoding of a character following a backslash in a JSON string. -/
def unescChar (c : Char) : Option Char :=
  if c = '"' then some '"'
  else if c = '\\' then some '\\'
  else if c = '/' then some '/'
  else if c = 'n' then some '\n'
  else if c = 'r' then some '\r'
  else if c = 't' then some '\t'
  else none

/-- Parse the body of a JSON string literal (after the opening quote),
returning the decoded string and the input after the closing quote. -/
def parseStringBody : List Char → Option (List Char × List Char)
  | [] => none
  | c :: cs =>
    if c = '"' then some ([], cs)
    else if c = '\\' then
      match cs with
      | [] => none
      | e :: cs' =>
        match unescChar e with
        | none => none
        | some u => (parseStringBody cs').map (fun p => (u :: p.1, p.2))
    else (parseStringBody cs).map (fun p => (c :: p.1, p.2))

/-- Consume leading decimal digits, accumulating their value. -/
def parseDigits : List Char → Nat → Nat × List Char
  | [], acc => (acc, [])
  | c :: cs, acc =>
    if c.isDigit then parseDigits cs (acc * 10 + (c.toNat - 48))
    else (acc, c :: cs)

/-- Match the tail of a JSON keyword (`null`, `true`, `false`) exactly. -/
def eatKeyword : List Char → List Char → Option (List Char)
  | [], cs => some cs
  | k :: ks, c :: cs => if c = k then eatKeyword ks cs else none
  | _ :: _, [] => none

/-- Parse a nonempty run of decimal digits. -/
def parseNat (cs : List Char) : Option (Nat × List Char) :=
  match cs with
  | [] => none
  | c :: _ => if c.isDigit then some (parseDigits cs 0) else none

mutual

/-- Recursive-descent model of `JSON.parse` for one value.  The fuel is
structural; any fuel at least `fuelOf` of the value suffices. -/
def parseVal : Nat → List Char → Option (Json × List Char)
  | 0, _ => none
  | fuel+1, cs =>
    match skipWs cs with
    | [] => none
    | c :: rest =>
      if c = 'n' then
        match eatKeyword ("ull".data) rest with
        | some r => some (.null, r)
        | none => none
      else if c = 't' then
        match eatKeyword ("rue".data) rest with
        | some r => some (.bool true, r)
        | none => none
      else if c = 'f' then
        match eatKeyword ("alse".data) rest with
        | some r => some (.bool false, r)
        | none => none
      else if c = '"' then
        (parseStringBody rest).map (fun p => (Json.str p.1, p.2))
      else if c = '-' then
        (parseNat rest).map (fun p => (Json.num (-(p.1 : Int)), p.2))
      else if c = '[' then
        match skipWs rest with
        | ']' :: r => some (.arr [], r)
        | cs' => (parseElems fuel cs').map (fun p => (Json.arr p.1, p.2))
      else if c = '{' then
        match skipWs rest with
        | '}' :: r => some (.obj [], r)
        | cs' => (parseFields fuel cs').map (fun p => (Json.obj p.1, p.2))
      else if c.isDigit then
        (parseNat (c :: rest)).map (fun p => (Json.num (p.1 : Int), p.2))
      else none

/-- Parse the elements of a nonempty JSON array up to the closing `]`. -/
def parseElems : Nat → List Char → Option (List Json × List Char)
  | 0, _ => none
  | fuel+1, cs =>
    match parseVal fuel cs with
    | none => none
    | some (el, mid) =>
      match skipWs mid with
      | ',' :: more => (parseElems fuel more).map (fun p => (el :: p.1, p.2))
      | ']' :: more => some ([el], more)
      | _ => none

/-- Parse the members of a nonempty JSON object up to the closing brace. -/
def parseFields : Nat → List Char → Option (List (List Char × Json) × List Char)
  | 0, _ => none
  | fuel+1, cs =>
    match skipWs cs with
    | '"' :: rest =>
      match parseStringBody rest with
      | none => none
      | some (k, r1) =>
        match skipWs r1 with
        | ':' :: r2 =>
          match parseVal fuel r2 with
          | none => none
          | some (v, r3) =>
            match skipWs r3 with
            | ',' :: r4 => (parseFields fuel r4).map (fun p => ((k, v) :: p.1, p.2))
            | '}' :: r4 => some ([(k, v)], r4)
            | _ => none
        | _ => none
    | _ => none

end

mutual

/-- Fuel sufficient for `parseVal` on the serialization of a value. -/
def fuelOf : Json → Nat
  | .arr xs => 1 + fuelOfElems xs
  | .obj fs => 1 + fuelOfFields fs
  | _ => 1

/-- Fuel sufficient for `parseElems`. -/
def fuelOfElems : List Json → Nat
  | [] => 0
  | x :: xs => 1 + fuelOf x + fuelOfElems xs

/-- Fuel sufficient for `parseFields`. -/
def fuelOfFields : List (List Char × Json) → Nat
  | [] => 0
  | g :: fs => 1 + fuelOf g.2 + fuelOfFields fs

end

/-- Model of `JSON.parse`: parse a complete JSON text (only trailing whitespace
may follow the value). -/
def parseJson (cs : List Char) : Option Json :=
  match parseVal (cs.length + 1) cs with
  | none => none
  | some (v, rest) => if skipWs rest = [] then some v else none

/-- Suffix of the input starting at its first `\x7b`, or `none`. -/
def dropToBrace : List Char → Option (List Char)
  | [] => none
  | c :: cs => if c = '{' then some (c :: cs) else dropToBrace cs

/-- On a reversed input: suffix starting at the first `\x7d`, or `none`. -/
def dropToCloseRev : List Char → Option (List Char)
  | [] => none
  | c :: cs => if c = '}' then some (c :: cs) else dropToCloseRev cs

/-- The greedy regex `/\x7b[\s\S]*\x7d/` of the route
(`responseText.match(...)`, `server/routes.ts`): the substring running
from the first opening brace to the last closing brace after it. -/
def jsonMatch (cs : List Char) : Option (List Char) :=
  match dropToBrace cs with
  | none => none
  | some tail =>
    match dropToCloseRev tail.reverse with
    | none => none
    | some rev => some rev.reverse

/-- The response normalization performed by `POST /api/generate-chart`:
take the greedy brace-to-brace match of the response text and
`JSON.parse` it; any failure (no match, or a JSON syntax error) is
reported as an extraction error (modelled as `none`). -/
def normalizeResponse (cs : List Char) : Option Json :=
  match jsonMatch cs with
  | none => none
  | some m => parseJson m

/-- A markdown code fence around a JSON payload, as commonly returned by
the upstream model: three backticks and the `json` tag, the payload, a
closing fence. -/
def fenceWrap (cs : List Char) : List Char :=
  ("```json\n".data) ++ cs ++ ("\n```".data)

/-- Flag that is `true` when the input does not begin with a decimal digit (so a
digit run ending at this point is maximal). -/
def headNotDigit : List Char → Bool
  | [] => true
  | c :: _ => !c.isDigit

/-- Element-wise fallible traversal (zod array parsing: every element
must parse). -/
def mapOption (f : α → Option β) (l : List α) : Option (List β) :=
  match l with
  | [] => some []
  | x :: xs =>
    match f x, mapOption f xs with
    | some y, some ys => some (y :: ys)
    | _, _ => none

/-- Extract a JSON string (zod `z.string()`). -/
def asStr : Json → Option (List Char)
  | .str s => some s
  | _ => none

/-- Extract a JSON number (zod `z.number()`; numbers are modelled as
integers). -/
def asNum : Json → Option Int
  | .num n => some n
  | _ => none

/-- Extract a JSON array. -/
def asArr : Json → Option (List Json)
  | .arr xs => some xs
  | _ => none

/-- A required object field: must be present and well-typed. -/
def reqField (j : Json) (k : List Char) (f : Json → Option α) : Option α :=
  (j.getField k).bind f

/-- An optional object field (zod `.optional()`): absence is fine, a
present value must be well-typed. -/
def optField (j : Json) (k : List Char) (f : Json → Option α) : Option (Option α) :=
  match j.getField k with
  | none => some none
  | some v => (f v).map some

/-- Model of `Task` (zod `taskSchema`): `id: z.number(), name: z.string(),
start: z.string(), end: z.string(), dependencies:
z.array(z.number()).optional(), category: z.string().optional()`.
Note `start`/`end` are plain `z.string()` — no nonemptiness or date
checks.  (Named `GanttTask` here because `Task` is taken by the Lean
core library.) -/
structure GanttTask where
  id : Int
  name : List Char
  start : List Char
  end_ : List Char
  dependencies : Option (List Int)
  category : Option (List Char)
deriving DecidableEq

/-- Model of `GanttChartData` (zod `ganttChartDataSchema`): `title: z.string(),
tasks: z.array(taskSchema)`. -/
structure GanttChartData where
  title : List Char
  tasks : List GanttTask
deriving DecidableEq

/-- Model of `BarChartDataPoint` (zod `barChartDataPointSchema`). -/
structure BarChartDataPoint where
  label : List Char
  value : Int
  category : Option (List Char)
deriving DecidableEq

/-- Model of `BarChartData` (zod `barChartDataSchema`); also used for `line`. -/
structure BarChartData where
  title : List Char
  xAxisLabel : Option (List Char)
  yAxisLabel : Option (List Char)
  data : List BarChartDataPoint
deriving DecidableEq

/-- Model of `PieChartDataPoint` (zod `pieChartDataPointSchema`). -/
structure PieChartDataPoint where
  label : List Char
  value : Int
  color : Option (List Char)
deriving DecidableEq

/-- Model of `PieChartData` (zod `pieChartDataSchema`). -/
structure PieChartData where
  title : List Char
  data : List PieChartDataPoint
deriving DecidableEq

/-- Model of `taskSchema.parse` on a JSON value. -/
def parseTask (j : Json) : Option GanttTask := do
  let i ← reqField j ("id".data) asNum
  let nm ← reqField j ("name".data) asStr
  let st ← reqField j ("start".data) asStr
  let en ← reqField j ("end".data) asStr
  let deps ← optField j ("dependencies".data) (fun v => (asArr v).bind (mapOption asNum))
  let cat ← optField j ("category".data) asStr
  some ⟨i, nm, st, en, deps, cat⟩

/-- Model of `ganttChartDataSchema.parse` on a JSON value. -/
def parseGantt (j : Json) : Option GanttChartData := do
  let t ← reqField j ("title".data) asStr
  let tasks ← reqField j ("tasks".data) (fun v => (asArr v).bind (mapOption parseTask))
  some ⟨t, tasks⟩

/-- Model of `barChartDataPointSchema.parse`. -/
def parseBarPoint (j : Json) : Option BarChartDataPoint := do
  let l ← reqField j ("label".data) asStr
  let v ← reqField j ("value".data) asNum
  let cat ← optField j ("category".data) asStr
  some ⟨l, v, cat⟩

/-- Model of `barChartDataSchema.parse`. -/
def parseBar (j : Json) : Option BarChartData := do
  let t ← reqField j ("title".data) asStr
  let x ← optField j ("xAxisLabel".data) asStr
  let y ← optField j ("yAxisLabel".data) asStr
  let pts ← reqField j ("data".data) (fun v => (asArr v).bind (mapOption parseBarPoint))
  some ⟨t, x, y, pts⟩

/-- Model of `pieChartDataPointSchema.parse`. -/
def parsePiePoint (j : Json) : Option PieChartDataPoint := do
  let l ← reqField j ("label".data) asStr
  let v ← reqField j ("value".data) asNum
  let col ← optField j ("color".data) asStr
  some ⟨l, v, col⟩

/-- Model of `pieChartDataSchema.parse`. -/
def parsePie (j : Json) : Option PieChartData := do
  let t ← reqField j ("title".data) asStr
  let pts ← reqField j ("data".data) (fun v => (asArr v).bind (mapOption parsePiePoint))
  some ⟨t, pts⟩

/-- Canonical JSON encoding of a `Task` (schema key order; absent
optional fields are omitted, matching a zod parse result). -/
def taskToJson (t : GanttTask) : Json :=
  .obj ([(("id".data), Json.num t.id), (("name".data), Json.str t.name),
    (("start".data), Json.str t.start), (("end".data), Json.str t.end_)] ++
    (match t.dependencies with
     | none => []
     | some ds => [(("dependencies".data), Json.arr (ds.map Json.num))]) ++
    (match t.category with
     | none => []
     | some c => [(("category".data), Json.str c)]))

/-- Canonical JSON encoding of `GanttChartData`. -/
def ganttToJson (g : GanttChartData) : Json :=
  .obj [(("title".data), Json.str g.title),
    (("tasks".data), Json.arr (g.tasks.map taskToJson))]

/-- Delete a key from a JSON object (used to express claims about
inputs with one required field removed). -/
def removeKey (j : Json) (k : List Char) : Json :=
  match j with
  | .obj fs => .obj (fs.filter (fun f => !(f.1 == k)))
  | v => v

/-- Canonical JSON encoding of a `BarChartDataPoint`. -/
def barPointToJson (p : BarChartDataPoint) : Json :=
  .obj ([(("label".data), Json.str p.label), (("value".data), Json.num p.value)] ++
    (match p.category with
     | none => []
     | some c => [(("category".data), Json.str c)]))

/-- Canonical JSON encoding of `BarChartData`. -/
def barToJson (b : BarChartData) : Json :=
  .obj ([(("title".data), Json.str b.title)] ++
    (match b.xAxisLabel with
     | none => []
     | some x => [(("xAxisLabel".data), Json.str x)]) ++
    (match b.yAxisLabel with
     | none => []
     | some y => [(("yAxisLabel".data), Json.str y)]) ++
    [(("data".data), Json.arr (b.data.map barPointToJson))])

/-- Canonical JSON encoding of a `PieChartDataPoint`. -/
def piePointToJson (p : PieChartDataPoint) : Json :=
  .obj ([(("label".data), Json.str p.label), (("value".data), Json.num p.value)] ++
    (match p.color with
     | none => []
     | some c => [(("color".data), Json.str c)]))

/-- Canonical JSON encoding of `PieChartData`. -/
def pieToJson (p : PieChartData) : Json :=
  .obj [(("title".data), Json.str p.title),
    (("data".data), Json.arr (p.data.map piePointToJson))]

/-- Chart validation errors: an unknown chart type tag, or a zod schema
rejection (`ZodError`, surfaced as a 400 with a field-path message). -/
inductive ChartError where
  | unsupportedType : ChartError
  | schemaError : ChartError
deriving DecidableEq

/-- The chart-type dispatch used both by `POST /api/generate-chart`
(lines 250–265) and `POST /api/charts` (lines 314–330) of the routes
file: `gantt`, `bar` and `pie` run their zod schema, `line` reuses the
bar schema, `flow` passes the JSON through unvalidated, and every other
tag is rejected as unsupported. -/
def validateChart (chartType : List Char) (j : Json) : Except ChartError Json :=
  if chartType = ("gantt".data) then
    match parseGantt j with
    | some g => .ok (ganttToJson g)
    | none => .error .schemaError
  else if chartType = ("bar".data) then
    match parseBar j with
    | some b => .ok (barToJson b)
    | none => .error .schemaError
  else if chartType = ("pie".data) then
    match parsePie j with
    | some p => .ok (pieToJson p)
    | none => .error .schemaError
  else if chartType = ("line".data) then
    match parseBar j with
    | some b => .ok (barToJson b)
    | none => .error .schemaError
  else if chartType = ("flow".data) then
    .ok j
  else
    .error .unsupportedType

/-- The five chart-type tags accepted by the service. -/
def chartTypeEnum : List (List Char) :=
  [("gantt".data), ("bar".data), ("pie".data), ("line".data), ("flow".data)]

/-- Model of `GeminiRequest` (zod `geminiRequestSchema`). -/
structure GeminiRequest where
  prompt : List Char
  chartType : List Char
deriving DecidableEq

/-- Model of `geminiRequestSchema.parse`: `prompt: z.string().min(1)` and
`chartType: z.enum(["gantt", "bar", "pie", "line", "flow"])
.default("gantt")` (the current shared schema; the earlier revision used
plain `z.string().default("gantt")` — both supply `"gantt"` when the
field is absent). -/
def parseGeminiRequest (j : Json) : Option GeminiRequest := do
  let p ← reqField j ("prompt".data) asStr
  if p.length < 1 then none
  else
    match j.getField ("chartType".data) with
    | none => some ⟨p, ("gantt".data)⟩
    | some (.str t) => if t ∈ chartTypeEnum then some ⟨p, t⟩ else none
    | some _ => none

/-- A persisted chart row (`Chart`). -/
structure Chart where
  id : Nat
  title : List Char
  type : List Char
  data : Json
  createdAt : Nat
  userId : Option Int

/-- The argument of `createChart` (`InsertChart`).  `userId` is doubly
optional: the outer level models the field being `undefined`, the inner
`none` models an explicit `null`. -/
structure InsertChart where
  title : List Char
  type : List Char
  data : Json
  userId : Option (Option Int)

/-- Model of `MemStorage`: the chart `Map` (insertion-ordered, keyed by id) and
the mutable `currentChartId` counter. -/
structure MemStorage where
  charts : List (Nat × Chart)
  currentChartId : Nat

/-- The constructor: empty map, counter starts at 1. -/
def MemStorage.init : MemStorage := ⟨[], 1⟩

/-- Model of `createChart`: take the current counter value as the id, increment
the counter, timestamp with `new Date()` (modelled by the `now`
argument), normalize `undefined` `userId` to `null`, and insert. -/
def MemStorage.createChart (s : MemStorage) (now : Nat) (c : InsertChart) :
    Chart × MemStorage :=
  let id := s.currentChartId
  let userId : Option Int :=
    match c.userId with
    | none => none
    | some u => u
  let chart : Chart := ⟨id, c.title, c.type, c.data, now, userId⟩
  (chart, ⟨s.charts ++ [(id, chart)], id + 1⟩)

/-- Model of `getChart`: `Map.get`. -/
def MemStorage.getChart (s : MemStorage) (id : Nat) : Option Chart :=
  s.charts.lookup id

/-- Model of `getAllCharts`: `Array.from(map.values())`. -/
def MemStorage.getAllCharts (s : MemStorage) : List Chart :=
  s.charts.map (fun p => p.2)

/-- Store well-formedness: every key equals its chart's id and is below
the counter.  Holds for `init` and is preserved by `createChart`. -/
def MemStorage.WF (s : MemStorage) : Prop :=
  ∀ p ∈ s.charts, p.1 = p.2.id ∧ p.2.id < s.currentChartId

/-- Model of `POST /api/charts`: validate the payload for its declared type with
the matching zod schema (`flow` unvalidated, unknown types rejected with
a 400), and only then `createChart`.  Returns the HTTP status and the
resulting store. -/
def postCharts (s : MemStorage) (now : Nat) (title ty : List Char) (data : Json) :
    Nat × MemStorage :=
  if ty = ("gantt".data) then
    match parseGantt data with
    | none => (400, s)
    | some _ => (201, (s.createChart now ⟨title, ty, data, some none⟩).2)
  else if ty = ("bar".data) then
    match parseBar data with
    | none => (400, s)
    | some _ => (201, (s.createChart now ⟨title, ty, data, some none⟩).2)
  else if ty = ("pie".data) then
    match parsePie data with
    | none => (400, s)
    | some _ => (201, (s.createChart now ⟨title, ty, data, some none⟩).2)
  else if ty = ("line".data) then
    match parseBar data with
    | none => (400, s)
    | some _ => (201, (s.createChart now ⟨title, ty, data, some none⟩).2)
  else if ty = ("flow".data) then
    (201, (s.createChart now ⟨title, ty, data, some none⟩).2)
  else
    (400, s)

/-- First-seen-order deduplication, modelling
`Array.from(new Set(...))` (a JavaScript `Set` iterates in insertion
order). -/
def uniqueFirst (l : List (List Char)) : List (List Char) :=
  l.foldl (fun acc x => if x ∈ acc then acc else acc ++ [x]) []

/-- Outcome of mounting a chart component: the guarded early return that
leaves the container untouched (the neutral empty state), or a rendered
scene. -/
inductive RenderOutput (σ : Type) where
  | emptyState : RenderOutput σ
  | scene (s : σ) : RenderOutput σ
deriving DecidableEq

/-- The parts of the Gantt render relevant here (title text, row band
domain, first-seen category legend). -/
structure GanttScene where
  title : List Char
  taskNames : List (List Char)
  categories : List (List Char)
deriving DecidableEq

/-- Model of `renderGanttChart` (gantt-chart.tsx). -/
def renderGanttModel (d : GanttChartData) : GanttScene :=
  ⟨d.title, d.tasks.map (fun t => t.name),
    uniqueFirst (d.tasks.map (fun t => t.category.getD ("Default".data)))⟩

/-- The `GanttChart` component effect: it returns early (rendering
nothing) when `data.tasks.length === 0`. -/
def ganttMount (d : GanttChartData) : RenderOutput GanttScene :=
  if d.tasks.isEmpty then .emptyState else .scene (renderGanttModel d)

/-- The parts of the bar render relevant here. `yMax` models
`d3.max(data.data, d => d.value) || 0`. -/
structure BarScene where
  title : List Char
  labels : List (List Char)
  yMax : Int
  categories : List (List Char)
deriving DecidableEq

/-- Model of `renderBarChart` (bar-chart.tsx). -/
def renderBarModel (d : BarChartData) : BarScene :=
  ⟨d.title, uniqueFirst (d.data.map (fun p => p.label)),
    ((d.data.map (fun p => p.value)).max?).getD 0,
    uniqueFirst (d.data.map (fun p => p.category.getD ("Default".data)))⟩

/-- The `BarChart` component effect: early return when
`data.data.length === 0`. -/
def barMount (d : BarChartData) : RenderOutput BarScene :=
  if d.data.isEmpty then .emptyState else .scene (renderBarModel d)

/-- The ordinal palette of `renderPieChart`. -/
def pieColors : List (List Char) :=
  [("#4338CA".data), ("#3B82F6".data), ("#10B981".data), ("#F59E0B".data),
    ("#EC4899".data), ("#8B5CF6".data), ("#F472B6".data), ("#34D399".data)]

/-- Model of `d3.scaleOrdinal().domain(domain).range(range)`: first-seen-order
index into the range, wrapping past its length. -/
def ordinalColor (domain range : List (List Char)) (x : List Char) : List Char :=
  let dom := uniqueFirst domain
  range.getD ((dom.indexOf x) % range.length) []

/-- The `colorAccessor` of `renderPieChart`:
`datum.color || colorScale(datum.label)` — an explicit non-empty color
wins, the empty string is falsy and falls back to the palette. -/
def colorAccessor (domain : List (List Char)) (p : PieChartDataPoint) : List Char :=
  match p.color with
  | some c => if c = [] then ordinalColor domain pieColors p.label else c
  | none => ordinalColor domain pieColors p.label

/-- The parts of the pie render relevant here (slices in input order
with their resolved fill colors). -/
structure PieScene where
  title : List Char
  labels : List (List Char)
  colors : List (List Char)
deriving DecidableEq

/-- Model of `renderPieChart` (pie-chart.tsx). -/
def renderPieModel (d : PieChartData) : PieScene :=
  ⟨d.title, d.data.map (fun p => p.label),
    d.data.map (colorAccessor (d.data.map (fun p => p.label)))⟩

/-- The `PieChart` component effect: early return when
`data.data.length === 0`. -/
def pieMount (d : PieChartData) : RenderOutput PieScene :=
  if d.data.isEmpty then .emptyState else .scene (renderPieModel d)

/-- The parts of the line render relevant here.  `yDomainMax` models the
y-scale upper bound `d3.max(...) as number * 1.1`; on empty data
`d3.max` is `undefined` (`none` here) and the JavaScript product is
`NaN`. -/
structure LineScene where
  title : List Char
  labels : List (List Char)
  yDomainMax : Option ℚ
  seriesCategories : List (List Char)
deriving DecidableEq

/-- Model of `renderLineChart` (line-chart.tsx): defaults missing categories to
`"Default"`, groups by category, takes the distinct labels. -/
def renderLineModel (d : BarChartData) : LineScene :=
  ⟨d.title, uniqueFirst (d.data.map (fun p => p.label)),
    ((d.data.map (fun p => p.value)).max?).map (fun v => (v : ℚ) * 11 / 10),
    uniqueFirst (d.data.map (fun p => p.category.getD ("Default".data)))⟩

/-- The `LineChart` component effect (line-chart.tsx lines 12–19): it
renders unconditionally — there is no empty-data guard. -/
def lineMount (d : BarChartData) : RenderOutput LineScene :=
  .scene (renderLineModel d)

/-- A flow-chart node (client-side `FlowNode` interface). -/
structure FlowNode where
  id : List Char
  label : List Char
  type : List Char
deriving DecidableEq

/-- A flow-chart link (client-side `FlowLink` interface). -/
structure FlowLink where
  source : List Char
  target : List Char
  label : Option (List Char)
deriving DecidableEq

/-- Client-side `FlowChartData` (unvalidated). -/
structure FlowChartData where
  title : List Char
  nodes : List FlowNode
  links : List FlowLink
deriving DecidableEq

/-- The parts of the flow render relevant here. -/
structure FlowScene where
  title : List Char
  nodeCount : Nat
  linkCount : Nat
deriving DecidableEq

/-- The `FlowChart` component effect (flow-chart.tsx lines 252–259): it
renders unconditionally — there is no empty-data guard. -/
def flowMount (d : FlowChartData) : RenderOutput FlowScene :=
  .scene ⟨d.title, d.nodes.length, d.links.length⟩

/-- The cumulative angle sweep of `d3.pie`: each arc spans
`value * k` for positive values and `0` otherwise, starting where the
previous arc ended. -/
def pieArcsGo {K : Type} [LinearOrderedField K] (k : K) : K → List K → List (K × K)
  | _, [] => []
  | a0, v :: rest =>
    (a0, a0 + (if 0 < v then v * k else 0)) ::
      pieArcsGo k (a0 + (if 0 < v then v * k else 0)) rest

/-- Model of `d3.pie()` with `sort(null)` (input order; `pie.sort` also clears
the default `sortValues`): positive values are summed, the angular unit
is `k = (endAngle - startAngle) / sum` (`0` when the sum is `0` — in
this field, division by zero is already `0`), and arcs are laid out
cumulatively from the start angle. -/
def pieArcs {K : Type} [LinearOrderedField K] (a b : K) (vs : List K) : List (K × K) :=
  pieArcsGo ((b - a) / (vs.filter (fun v => decide (0 < v))).sum) a vs

/-- The arc layout computed by `renderPieChart` on chart data: default
start angle `0`, default end angle `τ`. -/
def renderPieArcs (K : Type) [LinearOrderedField K] (tau : K) (d : PieChartData) :
    List (K × K) :=
  pieArcs 0 tau (d.data.map (fun p => (p.value : K)))

/-- Angular span of each arc. -/
def arcSpans {K : Type} [LinearOrderedField K] (l : List (K × K)) : List K :=
  l.map (fun p => p.2 - p.1)

theorem digitChar_facts :
    ∀ n, n < 10 → (Nat.digitChar n).isDigit = true ∧ (Nat.digitChar n).toNat = 48 + n := by
  decide

theorem isDigit_ne {c : Char} (hc : c.isDigit = true) (d : Char) (hd : d.isDigit = false) :
    c ≠ d := by
  intro he
  subst he
  rw [hc] at hd
  cases hd

theorem skipWs_cons {c : Char} (cs : List Char) (h : isWsChar c = false) :
    skipWs (c :: cs) = c :: cs := by
  simp [skipWs, h]

theorem isWsChar_of_digit {c : Char} (hc : c.isDigit = true) : isWsChar c = false := by
  have h1 := isDigit_ne hc ' ' (by decide)
  have h2 := isDigit_ne hc '\n' (by decide)
  have h3 := isDigit_ne hc '\t' (by decide)
  have h4 := isDigit_ne hc '\r' (by decide)
  simp [isWsChar, h1, h2, h3, h4]

theorem parseStringBody_close (cs : List Char) :
    parseStringBody ('"' :: cs) = some ([], cs) := by
  rw [parseStringBody.eq_def]
  rfl

theorem parseStringBody_raw {c : Char} (cs : List Char) (h1 : ¬c = '"') (h2 : ¬c = '\\') :
    parseStringBody (c :: cs) = (parseStringBody cs).map (fun p => (c :: p.1, p.2)) := by
  rw [parseStringBody.eq_def]
  simp only [if_neg h1, if_neg h2]

theorem parseStringBody_escape (e : Char) (cs : List Char) :
    parseStringBody ('\\' :: e :: cs) =
      match unescChar e with
      | none => none
      | some u => (parseStringBody cs).map (fun p => (u :: p.1, p.2)) := by
  rw [parseStringBody.eq_def]
  rfl

theorem parseStringBody_esc (s : List Char) (rest : List Char) :
    parseStringBody (escString s ++ '"' :: rest) = some (s, rest) := by
  induction s with
  | nil =>
    show parseStringBody ('"' :: rest) = some ([], rest)
    exact parseStringBody_close rest
  | cons c s ih =>
    have he : escString (c :: s) = escChar c ++ escString s := by
      simp [escString]
    rw [he, List.append_assoc]
    by_cases h1 : c = '"'
    · subst h1
      show parseStringBody ('\\' :: '"' :: (escString s ++ '"' :: rest)) = _
      rw [parseStringBody_escape]
      simp only [show unescChar '"' = some '"' from rfl, ih]; rfl
    · by_cases h2 : c = '\\'
      · subst h2
        show parseStringBody ('\\' :: '\\' :: (escString s ++ '"' :: rest)) = _
        rw [parseStringBody_escape]
        simp only [show unescChar '\\' = some '\\' from rfl, ih]; rfl
      · by_cases h3 : c = '\n'
        · subst h3
          show parseStringBody ('\\' :: 'n' :: (escString s ++ '"' :: rest)) = _
          rw [parseStringBody_escape]
          simp only [show unescChar 'n' = some '\n' from rfl, ih]; rfl
        · by_cases h4 : c = '\r'
          · subst h4
            show parseStringBody ('\\' :: 'r' :: (escString s ++ '"' :: rest)) = _
            rw [parseStringBody_escape]
            simp only [show unescChar 'r' = some '\r' from rfl, ih]; rfl
          · by_cases h5 : c = '\t'
            · subst h5
              show parseStringBody ('\\' :: 't' :: (escString s ++ '"' :: rest)) = _
              rw [parseStringBody_escape]
              simp only [show unescChar 't' = some '\t' from rfl, ih]; rfl
            · have hec : escChar c = [c] := by
                simp [escChar, h1, h2, h3, h4, h5]
              rw [hec, List.singleton_append, parseStringBody_raw _ h1 h2, ih]; rfl

theorem parseDigits_stop (cs : List Char) (acc : Nat) (h : headNotDigit cs = true) :
    parseDigits cs acc = (acc, cs) := by
  cases cs with
  | nil => simp [parseDigits]
  | cons c cs =>
    simp only [headNotDigit, Bool.not_eq_true'] at h
    simp [parseDigits, h]

theorem parseDigits_run (fuel : Nat) :
    ∀ n acc rest, n < fuel →
      parseDigits (natDigitsAux fuel n ++ rest) acc =
        parseDigits rest (acc * 10 ^ (natDigitsAux fuel n).length + n) := by
  induction fuel with
  | zero => intro n _ _ h; omega
  | succ fuel ih =>
    intro n acc rest h
    by_cases h10 : n < 10
    · obtain ⟨hdig, htn⟩ := digitChar_facts n h10
      simp [natDigitsAux, h10, parseDigits, hdig, htn]
    · have hdiv : n / 10 < fuel := by
        have := Nat.div_lt_self (show 0 < n by omega) (show 1 < 10 by norm_num)
        omega
      have hm : n % 10 < 10 := Nat.mod_lt _ (by norm_num)
      obtain ⟨hdig, htn⟩ := digitChar_facts _ hm
      rw [natDigitsAux, if_neg h10, List.append_assoc, ih _ acc _ hdiv]
      simp only [List.cons_append, List.nil_append, parseDigits, hdig, if_pos, htn,
        List.length_append, List.length_cons, List.length_nil]
      congr 1
      have hp : 10 ^ (List.length (natDigitsAux fuel (n / 10)) + 1) =
          10 ^ List.length (natDigitsAux fuel (n / 10)) * 10 := by
        rw [pow_succ]
      rw [hp, ← mul_assoc]
      generalize acc * 10 ^ List.length (natDigitsAux fuel (n / 10)) = m
      omega

theorem natDigitsAux_shape (fuel : Nat) :
    ∀ n, n < fuel → ∃ d ds, natDigitsAux fuel n = d :: ds ∧ d.isDigit = true := by
  induction fuel with
  | zero => intro n h; omega
  | succ fuel ih =>
    intro n h
    by_cases h10 : n < 10
    · exact ⟨Nat.digitChar n, [], by simp [natDigitsAux, h10], (digitChar_facts n h10).1⟩
    · have hdiv : n / 10 < fuel := by
        have := Nat.div_lt_self (show 0 < n by omega) (show 1 < 10 by norm_num)
        omega
      obtain ⟨d, ds, he, hd⟩ := ih _ hdiv
      exact ⟨d, ds ++ [Nat.digitChar (n % 10)], by simp [natDigitsAux, h10, he], hd⟩

theorem parseNat_natDigits (n : Nat) (rest : List Char) (h : headNotDigit rest = true) :
    parseNat (natDigits n ++ rest) = some (n, rest) := by
  obtain ⟨d, ds, he, hd⟩ := natDigitsAux_shape (n + 1) n (by omega)
  have hrun := parseDigits_run (n + 1) n 0 rest (by omega)
  rw [parseDigits_stop rest _ h] at hrun
  unfold natDigits
  rw [he] at hrun ⊢
  simp only [List.cons_append, parseNat, hd, if_pos]
  simp only [List.cons_append] at hrun
  rw [hrun]
  simp

theorem natDigits_shape (n : Nat) : ∃ d ds, natDigits n = d :: ds ∧ d.isDigit = true :=
  natDigitsAux_shape (n + 1) n (by omega)

theorem parseVal_null (fuel : Nat) (r : List Char) :
    parseVal (fuel+1) (("null".data) ++ r) = some (.null, r) := rfl

theorem parseVal_true (fuel : Nat) (r : List Char) :
    parseVal (fuel+1) (("true".data) ++ r) = some (.bool true, r) := rfl

theorem parseVal_false (fuel : Nat) (r : List Char) :
    parseVal (fuel+1) (("false".data) ++ r) = some (.bool false, r) := rfl

theorem parseVal_quote (fuel : Nat) (cs : List Char) :
    parseVal (fuel+1) ('"' :: cs) =
      (parseStringBody cs).map (fun p => (Json.str p.1, p.2)) := rfl

theorem parseVal_minus (fuel : Nat) (cs : List Char) :
    parseVal (fuel+1) ('-' :: cs) =
      (parseNat cs).map (fun p => (Json.num (-(p.1 : Int)), p.2)) := rfl

theorem parseVal_lbrack (fuel : Nat) (cs : List Char) :
    parseVal (fuel+1) ('[' :: cs) =
      (match skipWs cs with
       | ']' :: r => some (.arr [], r)
       | cs' => (parseElems fuel cs').map (fun p => (Json.arr p.1, p.2))) := rfl

theorem parseVal_lbrace (fuel : Nat) (cs : List Char) :
    parseVal (fuel+1) ('{' :: cs) =
      (match skipWs cs with
       | '}' :: r => some (.obj [], r)
       | cs' => (parseFields fuel cs').map (fun p => (Json.obj p.1, p.2))) := rfl

theorem parseElems_succ (fuel : Nat) (cs : List Char) :
    parseElems (fuel+1) cs =
      (match parseVal fuel cs with
       | none => none
       | some (el, mid) =>
         match skipWs mid with
         | ',' :: more => (parseElems fuel more).map (fun p => (el :: p.1, p.2))
         | ']' :: more => some ([el], more)
         | _ => none) := rfl

theorem parseFields_quote (fuel : Nat) (cs : List Char) :
    parseFields (fuel+1) ('"' :: cs) =
      (match parseStringBody cs with
       | none => none
       | some (k, r1) =>
         match skipWs r1 with
         | ':' :: r2 =>
           match parseVal fuel r2 with
           | none => none
           | some (v, r3) =>
             match skipWs r3 with
             | ',' :: r4 => (parseFields fuel r4).map (fun p => ((k, v) :: p.1, p.2))
             | '}' :: r4 => some ([(k, v)], r4)
             | _ => none
         | _ => none) := rfl

theorem parseVal_digit (fuel : Nat) {c : Char} (cs : List Char) (hc : c.isDigit = true) :
    parseVal (fuel+1) (c :: cs) =
      (parseNat (c :: cs)).map (fun p => (Json.num (p.1 : Int), p.2)) := by
  have h1 := isDigit_ne hc 'n' (by decide)
  have h2 := isDigit_ne hc 't' (by decide)
  have h3 := isDigit_ne hc 'f' (by decide)
  have h4 := isDigit_ne hc '"' (by decide)
  have h5 := isDigit_ne hc '-' (by decide)
  have h6 := isDigit_ne hc '[' (by decide)
  have h7 := isDigit_ne hc '{' (by decide)
  have hsk : skipWs (c :: cs) = c :: cs := skipWs_cons cs (isWsChar_of_digit hc)
  simp only [parseVal, hsk, if_neg h1, if_neg h2, if_neg h3, if_neg h4, if_neg h5,
    if_neg h6, if_neg h7, hc, if_pos]

theorem fuelOf_pos (x : Json) : 1 ≤ fuelOf x := by
  cases x <;> simp [fuelOf]

/-- The serialization of any value starts with a non-whitespace character
that is not a closing bracket, closing brace or comma. -/
theorem stringify_cons (x : Json) :
    ∃ c cs, stringifyVal x = c :: cs ∧ isWsChar c = false ∧
      c ≠ ']' ∧ c ≠ '}' ∧ c ≠ ',' := by
  cases x with
  | null => refine ⟨'n', _, rfl, ?_, ?_, ?_, ?_⟩ <;> decide
  | bool b =>
    cases b with
    | false => refine ⟨'f', _, rfl, ?_, ?_, ?_, ?_⟩ <;> decide
    | true => refine ⟨'t', _, rfl, ?_, ?_, ?_, ?_⟩ <;> decide
  | num i =>
    show ∃ c cs, intChars i = c :: cs ∧ _
    unfold intChars
    by_cases h : i < 0
    · rw [if_pos h]
      refine ⟨'-', _, rfl, ?_, ?_, ?_, ?_⟩ <;> decide
    · rw [if_neg h]
      obtain ⟨d, ds, he, hd⟩ := natDigits_shape i.natAbs
      exact ⟨d, ds, he, isWsChar_of_digit hd, isDigit_ne hd ']' (by decide),
        isDigit_ne hd '}' (by decide), isDigit_ne hd ',' (by decide)⟩
  | str s => refine ⟨'"', _, rfl, ?_, ?_, ?_, ?_⟩ <;> decide
  | arr xs => refine ⟨'[', _, rfl, ?_, ?_, ?_, ?_⟩ <;> decide
  | obj fs => refine ⟨'{', _, rfl, ?_, ?_, ?_, ?_⟩ <;> decide

theorem stringifyElems_cons (y : Json) (ys : List Json) :
    ∃ t, stringifyElems (y :: ys) = stringifyVal y ++ t := by
  cases ys with
  | nil => exact ⟨[], by simp [stringifyElems]⟩
  | cons z zs => exact ⟨',' :: stringifyElems (z :: zs), rfl⟩

mutual

/-- Parsing inverts serialization for a single value (given enough fuel
and a continuation that cannot extend a trailing digit run). -/
theorem parseVal_stringify : ∀ (x : Json) (fuel : Nat) (rest : List Char),
    fuelOf x ≤ fuel → headNotDigit rest = true →
    parseVal fuel (stringifyVal x ++ rest) = some (x, rest)
  | x, 0, rest, hf, _ => absurd hf (by have := fuelOf_pos x; omega)
  | .null, fuel+1, rest, hf, hr => parseVal_null fuel rest
  | .bool true, fuel+1, rest, hf, hr => parseVal_true fuel rest
  | .bool false, fuel+1, rest, hf, hr => parseVal_false fuel rest
  | .num i, fuel+1, rest, hf, hr => by
    show parseVal (fuel+1) (intChars i ++ rest) = some (.num i, rest)
    unfold intChars
    by_cases h : i < 0
    · rw [if_pos h]
      show parseVal (fuel+1) ('-' :: (natDigits i.natAbs ++ rest)) = _
      rw [parseVal_minus, parseNat_natDigits _ _ hr]
      have hi : -((i.natAbs : Int)) = i := by omega
      show some (Json.num (-((i.natAbs : Int))), rest) = some (Json.num i, rest)
      rw [hi]
    · rw [if_neg h]
      obtain ⟨d, ds, he, hd⟩ := natDigits_shape i.natAbs
      rw [he, List.cons_append, parseVal_digit fuel _ hd, ← List.cons_append, ← he,
        parseNat_natDigits _ _ hr]
      have hi : ((i.natAbs : Int)) = i := by omega
      show some (Json.num ((i.natAbs : Int)), rest) = some (Json.num i, rest)
      rw [hi]
  | .str s, fuel+1, rest, hf, hr => by
    have hassoc : (escString s ++ ['"']) ++ rest = escString s ++ '"' :: rest := by
      simp
    show parseVal (fuel+1) ('"' :: ((escString s ++ ['"']) ++ rest)) = _
    rw [hassoc, parseVal_quote, parseStringBody_esc]
    rfl
  | .arr [], fuel+1, rest, hf, hr => by
    show parseVal (fuel+1) ('[' :: ']' :: rest) = some (.arr [], rest)
    rfl
  | .arr (y :: ys), fuel+1, rest, hf, hr => by
    have hfe : fuelOfElems (y :: ys) ≤ fuel := by
      have h1 : fuelOf (.arr (y :: ys)) = 1 + fuelOfElems (y :: ys) := rfl
      omega
    have hassoc : (stringifyElems (y :: ys) ++ [']']) ++ rest =
        stringifyElems (y :: ys) ++ ']' :: rest := by simp
    show parseVal (fuel+1) ('[' :: ((stringifyElems (y :: ys) ++ [']']) ++ rest)) = _
    rw [hassoc, parseVal_lbrack]
    obtain ⟨c, cs, hc, hw, hne1, hne2, hne3⟩ := stringify_cons y
    obtain ⟨t, ht⟩ := stringifyElems_cons y ys
    have hu : stringifyElems (y :: ys) ++ ']' :: rest =
        c :: (cs ++ (t ++ ']' :: rest)) := by
      rw [ht, hc]; simp
    rw [hu, skipWs_cons _ hw]
    split
    · rename_i r heq
      injection heq with heq1 _
      exact absurd heq1 hne1
    · rw [← hu, parseElems_stringify (y :: ys) fuel rest (by simp) hfe]
      rfl
  | .obj [], fuel+1, rest, hf, hr => by
    show parseVal (fuel+1) ('{' :: '}' :: rest) = some (.obj [], rest)
    rfl
  | .obj ((k, v) :: gs), fuel+1, rest, hf, hr => by
    have hfe : fuelOfFields ((k, v) :: gs) ≤ fuel := by
      have h1 : fuelOf (.obj ((k, v) :: gs)) = 1 + fuelOfFields ((k, v) :: gs) := rfl
      omega
    have hassoc : (stringifyFields ((k, v) :: gs) ++ ['}']) ++ rest =
        stringifyFields ((k, v) :: gs) ++ '}' :: rest := by simp
    show parseVal (fuel+1)
      ('{' :: ((stringifyFields ((k, v) :: gs) ++ ['}']) ++ rest)) = _
    rw [hassoc, parseVal_lbrace]
    have hu : ∃ u, stringifyFields ((k, v) :: gs) ++ '}' :: rest = '"' :: u := by
      cases gs with
      | nil => exact ⟨(escString k ++ ['"']) ++ ':' :: stringifyVal v ++ '}' :: rest,
          by simp [stringifyFields, strLit]⟩
      | cons g' gs' => exact ⟨(escString k ++ ['"']) ++ ':' :: stringifyVal v ++
          ',' :: stringifyFields (g' :: gs') ++ '}' :: rest,
          by simp [stringifyFields, strLit]⟩
    obtain ⟨u, hu⟩ := hu
    rw [hu, skipWs_cons _ (by decide)]
    split
    · rename_i r heq
      injection heq with heq1 _
      exact absurd heq1 (by decide)
    · rw [← hu, parseFields_stringify ((k, v) :: gs) fuel rest (by simp) hfe]
      rfl

/-- Parsing inverts serialization for a nonempty comma-joined element
list followed by the closing bracket. -/
theorem parseElems_stringify : ∀ (xs : List Json) (fuel : Nat) (rest : List Char),
    xs ≠ [] → fuelOfElems xs ≤ fuel →
    parseElems fuel (stringifyElems xs ++ ']' :: rest) = some (xs, rest)
  | [], _, _, hne, _ => absurd rfl hne
  | y :: ys, 0, rest, hne, hf => by
    have h1 : fuelOfElems (y :: ys) = 1 + fuelOf y + fuelOfElems ys := rfl
    exact absurd hf (by omega)
  | [y], fuel+1, rest, hne, hf => by
    have h1 : fuelOfElems [y] = 1 + fuelOf y + fuelOfElems [] := rfl
    have h0 : fuelOfElems ([] : List Json) = 0 := rfl
    rw [parseElems_succ]
    have h2 : stringifyElems [y] = stringifyVal y := by
      simp [stringifyElems]
    rw [h2, parseVal_stringify y fuel (']' :: rest) (by omega) (by rfl)]
    show (match skipWs (']' :: rest) with
      | ',' :: r' => (parseElems fuel r').map (fun p => (y :: p.1, p.2))
      | ']' :: r' => some ([y], r')
      | _ => none) = some ([y], rest)
    rw [skipWs_cons _ (by decide)]
    rfl
  | y :: z :: zs, fuel+1, rest, hne, hf => by
    have h1 : fuelOfElems (y :: z :: zs) = 1 + fuelOf y + fuelOfElems (z :: zs) := rfl
    have h2 : stringifyElems (y :: z :: zs) ++ ']' :: rest =
        stringifyVal y ++ (',' :: (stringifyElems (z :: zs) ++ ']' :: rest)) := by
      show (stringifyVal y ++ ',' :: stringifyElems (z :: zs)) ++ ']' :: rest = _
      simp
    rw [parseElems_succ, h2, parseVal_stringify y fuel _ (by omega) (by rfl)]
    show (match skipWs (',' :: (stringifyElems (z :: zs) ++ ']' :: rest)) with
      | ',' :: r' => (parseElems fuel r').map (fun p => (y :: p.1, p.2))
      | ']' :: r' => some ([y], r')
      | _ => none) = some (y :: z :: zs, rest)
    rw [skipWs_cons _ (by decide)]
    show (parseElems fuel (stringifyElems (z :: zs) ++ ']' :: rest)).map
      (fun p => (y :: p.1, p.2)) = some (y :: z :: zs, rest)
    rw [parseElems_stringify (z :: zs) fuel rest (by simp) (by omega)]
    rfl

/-- Parsing inverts serialization for a nonempty comma-joined member
list followed by the closing brace. -/
theorem parseFields_stringify :
    ∀ (fs : List (List Char × Json)) (fuel : Nat) (rest : List Char),
    fs ≠ [] → fuelOfFields fs ≤ fuel →
    parseFields fuel (stringifyFields fs ++ '}' :: rest) = some (fs, rest)
  | [], _, _, hne, _ => absurd rfl hne
  | (k, v) :: gs, 0, rest, hne, hf => by
    have h1 : fuelOfFields ((k, v) :: gs) = 1 + fuelOf v + fuelOfFields gs := rfl
    exact absurd hf (by omega)
  | [(k, v)], fuel+1, rest, hne, hf => by
    have h1 : fuelOfFields [(k, v)] = 1 + fuelOf v + fuelOfFields [] := rfl
    have h2 : stringifyFields [(k, v)] ++ '}' :: rest =
        '"' :: (escString k ++ '"' :: ':' :: (stringifyVal v ++ '}' :: rest)) := by
      show (('"' :: (escString k ++ ['"'])) ++ ':' :: stringifyVal v) ++ '}' :: rest = _
      simp
    rw [h2, parseFields_quote, parseStringBody_esc]
    show (match skipWs (':' :: (stringifyVal v ++ '}' :: rest)) with
      | ':' :: r2 =>
        match parseVal fuel r2 with
        | none => none
        | some (w, r3) =>
          match skipWs r3 with
          | ',' :: r4 => (parseFields fuel r4).map (fun p => ((k, w) :: p.1, p.2))
          | '}' :: r4 => some ([(k, w)], r4)
          | _ => none
      | _ => none) = some ([(k, v)], rest)
    rw [skipWs_cons _ (by decide)]
    show (match parseVal fuel (stringifyVal v ++ '}' :: rest) with
      | none => none
      | some (w, r3) =>
        match skipWs r3 with
        | ',' :: r4 => (parseFields fuel r4).map (fun p => ((k, w) :: p.1, p.2))
        | '}' :: r4 => some ([(k, w)], r4)
        | _ => none) = some ([(k, v)], rest)
    rw [parseVal_stringify v fuel ('}' :: rest) (by omega) (by rfl)]
    show (match skipWs ('}' :: rest) with
      | ',' :: r4 => (parseFields fuel r4).map (fun p => ((k, v) :: p.1, p.2))
      | '}' :: r4 => some ([(k, v)], r4)
      | _ => none) = some ([(k, v)], rest)
    rw [skipWs_cons _ (by decide)]
    rfl
  | (k, v) :: g' :: gs', fuel+1, rest, hne, hf => by
    have h1 : fuelOfFields ((k, v) :: g' :: gs') =
        1 + fuelOf v + fuelOfFields (g' :: gs') := rfl
    have h2 : stringifyFields ((k, v) :: g' :: gs') ++ '}' :: rest =
        '"' :: (escString k ++ '"' :: ':' ::
          (stringifyVal v ++ ',' :: (stringifyFields (g' :: gs') ++ '}' :: rest))) := by
      show (('"' :: (escString k ++ ['"'])) ++ ':' :: stringifyVal v ++
        ',' :: stringifyFields (g' :: gs')) ++ '}' :: rest = _
      simp
    rw [h2, parseFields_quote, parseStringBody_esc]
    show (match skipWs (':' :: (stringifyVal v ++ ',' ::
        (stringifyFields (g' :: gs') ++ '}' :: rest))) with
      | ':' :: r2 =>
        match parseVal fuel r2 with
        | none => none
        | some (w, r3) =>
          match skipWs r3 with
          | ',' :: r4 => (parseFields fuel r4).map (fun p => ((k, w) :: p.1, p.2))
          | '}' :: r4 => some ([(k, w)], r4)
          | _ => none
      | _ => none) = some ((k, v) :: g' :: gs', rest)
    rw [skipWs_cons _ (by decide)]
    show (match parseVal fuel (stringifyVal v ++ ',' ::
        (stringifyFields (g' :: gs') ++ '}' :: rest)) with
      | none => none
      | some (w, r3) =>
        match skipWs r3 with
        | ',' :: r4 => (parseFields fuel r4).map (fun p => ((k, w) :: p.1, p.2))
        | '}' :: r4 => some ([(k, w)], r4)
        | _ => none) = some ((k, v) :: g' :: gs', rest)
    rw [parseVal_stringify v fuel _ (by omega) (by rfl)]
    show (match skipWs (',' :: (stringifyFields (g' :: gs') ++ '}' :: rest)) with
      | ',' :: r4 => (parseFields fuel r4).map (fun p => ((k, v) :: p.1, p.2))
      | '}' :: r4 => some ([(k, v)], r4)
      | _ => none) = some ((k, v) :: g' :: gs', rest)
    rw [skipWs_cons _ (by decide)]
    show (parseFields fuel (stringifyFields (g' :: gs') ++ '}' :: rest)).map
      (fun p => ((k, v) :: p.1, p.2)) = some ((k, v) :: g' :: gs', rest)
    rw [parseFields_stringify (g' :: gs') fuel rest (by simp) (by omega)]
    rfl

end

mutual

/-- The fuel needed by the parser is bounded by the serialized length. -/
theorem fuelOf_le_length : ∀ x : Json, fuelOf x ≤ (stringifyVal x).length
  | .null => by simp [fuelOf, stringifyVal]
  | .bool true => by simp [fuelOf, stringifyVal]
  | .bool false => by simp [fuelOf, stringifyVal]
  | .num i => by
    obtain ⟨d, ds, he, _⟩ := natDigits_shape i.natAbs
    have h1 : fuelOf (.num i) = 1 := rfl
    have h2 : stringifyVal (.num i) = intChars i := rfl
    rw [h1, h2]
    unfold intChars
    by_cases h : i < 0
    · rw [if_pos h, he]; simp
    · rw [if_neg h, he]; simp
  | .str s => by
    have h1 : fuelOf (.str s) = 1 := rfl
    have h2 : stringifyVal (.str s) = '"' :: (escString s ++ ['"']) := rfl
    rw [h1, h2]; simp
  | .arr [] => by
    have h1 : fuelOf (.arr []) = 1 + fuelOfElems [] := rfl
    have h0 : fuelOfElems ([] : List Json) = 0 := rfl
    have h2 : stringifyVal (.arr []) = ['[', ']'] := rfl
    rw [h1, h0, h2]; simp
  | .arr (y :: ys) => by
    have h1 : fuelOf (.arr (y :: ys)) = 1 + fuelOfElems (y :: ys) := rfl
    have h2 : stringifyVal (.arr (y :: ys)) =
        '[' :: (stringifyElems (y :: ys) ++ [']']) := rfl
    have hb := fuelOfElems_le_length (y :: ys) (by simp)
    rw [h1, h2]; simp only [List.length_cons, List.length_append, List.length_singleton]
    omega
  | .obj [] => by
    have h1 : fuelOf (.obj []) = 1 + fuelOfFields [] := rfl
    have h0 : fuelOfFields ([] : List (List Char × Json)) = 0 := rfl
    have h2 : stringifyVal (.obj []) = ['{', '}'] := rfl
    rw [h1, h0, h2]; simp
  | .obj (g :: gs) => by
    have h1 : fuelOf (.obj (g :: gs)) = 1 + fuelOfFields (g :: gs) := rfl
    have h2 : stringifyVal (.obj (g :: gs)) =
        '{' :: (stringifyFields (g :: gs) ++ ['}']) := rfl
    have hb := fuelOfFields_le_length (g :: gs) (by simp)
    rw [h1, h2]; simp only [List.length_cons, List.length_append, List.length_singleton]
    omega

/-- Length bound for element lists. -/
theorem fuelOfElems_le_length :
    ∀ xs : List Json, xs ≠ [] → fuelOfElems xs ≤ (stringifyElems xs).length + 1
  | [], hne => absurd rfl hne
  | [y], _ => by
    have h1 : fuelOfElems [y] = 1 + fuelOf y + 0 := rfl
    have h2 : stringifyElems [y] = stringifyVal y := by simp [stringifyElems]
    have hb := fuelOf_le_length y
    rw [h1, h2]; omega
  | y :: z :: zs, _ => by
    have h1 : fuelOfElems (y :: z :: zs) = 1 + fuelOf y + fuelOfElems (z :: zs) := rfl
    have h2 : stringifyElems (y :: z :: zs) =
        stringifyVal y ++ ',' :: stringifyElems (z :: zs) := rfl
    have hb := fuelOf_le_length y
    have hbs := fuelOfElems_le_length (z :: zs) (by simp)
    rw [h1, h2]; simp only [List.length_append, List.length_cons]
    omega

/-- Length bound for member lists. -/
theorem fuelOfFields_le_length :
    ∀ fs : List (List Char × Json), fs ≠ [] →
      fuelOfFields fs ≤ (stringifyFields fs).length + 1
  | [], hne => absurd rfl hne
  | [(k, v)], _ => by
    have h1 : fuelOfFields [(k, v)] = 1 + fuelOf v + 0 := rfl
    have h2 : stringifyFields [(k, v)] = strLit k ++ ':' :: stringifyVal v := rfl
    have hb := fuelOf_le_length v
    rw [h1, h2]; simp only [List.length_append, List.length_cons]
    omega
  | (k, v) :: g' :: gs', _ => by
    have h1 : fuelOfFields ((k, v) :: g' :: gs') =
        1 + fuelOf v + fuelOfFields (g' :: gs') := rfl
    have h2 : stringifyFields ((k, v) :: g' :: gs') =
        strLit k ++ ':' :: stringifyVal v ++ ',' :: stringifyFields (g' :: gs') := rfl
    have hb := fuelOf_le_length v
    have hbs := fuelOfFields_le_length (g' :: gs') (by simp)
    rw [h1, h2]; simp only [List.length_append, List.length_cons]
    omega

end

/-- Round trip: `parseJson` inverts `stringify` for every JSON value. -/
theorem parseJson_stringify (x : Json) : parseJson (stringify x) = some x := by
  have hb := fuelOf_le_length x
  have h := parseVal_stringify x ((stringifyVal x).length + 1) [] (by omega) rfl
  rw [List.append_nil] at h
  unfold parseJson stringify
  rw [h]
  rfl

theorem dropToBrace_skip (pre : List Char) (h : '{' ∉ pre) (cs : List Char) :
    dropToBrace (pre ++ cs) = dropToBrace cs := by
  induction pre with
  | nil => rfl
  | cons c pre ih =>
    have hc : ¬c = '{' := by
      intro he; exact h (by rw [he]; exact List.mem_cons_self _ _)
    show dropToBrace (c :: (pre ++ cs)) = dropToBrace cs
    rw [dropToBrace.eq_def]
    simp only [if_neg hc]
    exact ih (fun hm => h (List.mem_cons_of_mem _ hm))

theorem dropToBrace_hit (cs : List Char) : dropToBrace ('{' :: cs) = some ('{' :: cs) := by
  rw [dropToBrace.eq_def]
  rfl

theorem dropToCloseRev_skip (pre : List Char) (h : '}' ∉ pre) (cs : List Char) :
    dropToCloseRev (pre ++ cs) = dropToCloseRev cs := by
  induction pre with
  | nil => rfl
  | cons c pre ih =>
    have hc : ¬c = '}' := by
      intro he; exact h (by rw [he]; exact List.mem_cons_self _ _)
    show dropToCloseRev (c :: (pre ++ cs)) = dropToCloseRev cs
    rw [dropToCloseRev.eq_def]
    simp only [if_neg hc]
    exact ih (fun hm => h (List.mem_cons_of_mem _ hm))

theorem dropToCloseRev_hit (cs : List Char) :
    dropToCloseRev ('}' :: cs) = some ('}' :: cs) := by
  rw [dropToCloseRev.eq_def]
  rfl

/-- On a serialized top-level object, the greedy brace-to-brace match is
the whole serialization: it starts with `\x7b` and ends with `\x7d`. -/
theorem jsonMatch_stringify_obj (fs : List (List Char × Json)) :
    jsonMatch (stringify (.obj fs)) = some (stringify (.obj fs)) := by
  have h2 : stringify (.obj fs) = '{' :: (stringifyFields fs ++ ['}']) := rfl
  rw [h2]
  unfold jsonMatch
  rw [dropToBrace_hit]
  have hrev : ('{' :: (stringifyFields fs ++ ['}'])).reverse =
      '}' :: ((stringifyFields fs).reverse ++ ['{']) := by
    simp
  show (match dropToCloseRev ('{' :: (stringifyFields fs ++ ['}'])).reverse with
    | none => none
    | some rev => some rev.reverse) = _
  rw [hrev, dropToCloseRev_hit]
  simp

/-- Wrapping the serialized object in a markdown code fence does not
change the greedy brace-to-brace match: the fence contains no braces. -/
theorem jsonMatch_fenced_obj (fs : List (List Char × Json)) :
    jsonMatch (fenceWrap (stringify (.obj fs))) = some (stringify (.obj fs)) := by
  have h2 : stringify (.obj fs) = '{' :: (stringifyFields fs ++ ['}']) := rfl
  unfold fenceWrap jsonMatch
  rw [show ("```json\n".data) ++ stringify (.obj fs) ++ ("\n```".data) =
      ("```json\n".data) ++ (stringify (.obj fs) ++ ("\n```".data)) from by simp]
  rw [dropToBrace_skip _ (by decide) _]
  rw [h2]
  show (match dropToBrace ('{' :: ((stringifyFields fs ++ ['}']) ++ "\n```".data)) with
    | none => none
    | some tail =>
      match dropToCloseRev tail.reverse with
      | none => none
      | some rev => some rev.reverse) = _
  rw [dropToBrace_hit]
  have hrev : ('{' :: ((stringifyFields fs ++ ['}']) ++ "\n```".data)).reverse =
      ("\n```".data).reverse ++ ('}' :: ((stringifyFields fs).reverse ++ ['{'])) := by
    simp
  show (match dropToCloseRev
      ('{' :: ((stringifyFields fs ++ ['}']) ++ "\n```".data)).reverse with
    | none => none
    | some rev => some rev.reverse) = _
  rw [hrev, dropToCloseRev_skip _ (by decide) _, dropToCloseRev_hit]
  simp

/-- The route's normalization recovers any serialized top-level object. -/
theorem normalizeResponse_stringify_obj (fs : List (List Char × Json)) :
    normalizeResponse (stringify (.obj fs)) = some (.obj fs) := by
  unfold normalizeResponse
  rw [jsonMatch_stringify_obj]
  show parseJson (stringify (.obj fs)) = some (.obj fs)
  exact parseJson_stringify _

/-- The route's normalization recovers a serialized top-level object
wrapped in a markdown code fence. -/
theorem normalizeResponse_fenced_obj (fs : List (List Char × Json)) :
    normalizeResponse (fenceWrap (stringify (.obj fs))) = some (.obj fs) := by
  unfold normalizeResponse
  rw [jsonMatch_fenced_obj]
  show parseJson (stringify (.obj fs)) = some (.obj fs)
  exact parseJson_stringify _

theorem mapOption_asNum (ds : List Int) : mapOption asNum (ds.map Json.num) = some ds := by
  induction ds with
  | nil => rfl
  | cons d ds ih => simp [mapOption, asNum, ih]

theorem parseTask_taskToJson (t : GanttTask) : parseTask (taskToJson t) = some t := by
  obtain ⟨i, nm, st, en, deps, cat⟩ := t
  cases deps with
  | none =>
    cases cat with
    | none => rfl
    | some c => rfl
  | some ds =>
    cases cat with
    | none =>
      simp [parseTask, taskToJson, reqField, optField, Json.getField, asStr, asNum,
        asArr, mapOption_asNum, List.lookup]
    | some c =>
      simp [parseTask, taskToJson, reqField, optField, Json.getField, asStr, asNum,
        asArr, mapOption_asNum, List.lookup]

theorem mapOption_parseTask (ts : List GanttTask) :
    mapOption parseTask (ts.map taskToJson) = some ts := by
  induction ts with
  | nil => rfl
  | cons t ts ih => simp [mapOption, parseTask_taskToJson, ih]

theorem parseGantt_ganttToJson (g : GanttChartData) : parseGantt (ganttToJson g) = some g := by
  obtain ⟨t, ts⟩ := g
  simp [parseGantt, ganttToJson, reqField, Json.getField, asStr, asArr,
    mapOption_parseTask, List.lookup]

theorem parseTask_removeKey (t : GanttTask) (key : List Char)
    (hk : key ∈ [("id".data), ("name".data), ("start".data), ("end".data)]) :
    parseTask (removeKey (taskToJson t) key) = none := by
  obtain ⟨i, nm, st, en, deps, cat⟩ := t
  simp only [List.mem_cons, List.mem_singleton, List.not_mem_nil, or_false] at hk
  rcases hk with rfl | rfl | rfl | rfl <;> cases deps <;> cases cat <;> rfl

theorem parseGantt_removeTitle (g : GanttChartData) :
    parseGantt (removeKey (ganttToJson g) ("title".data)) = none := by
  obtain ⟨t, ts⟩ := g
  rfl

theorem mapOption_parseTask_bad (pre post : List GanttTask) (bad : Json)
    (h : parseTask bad = none) :
    mapOption parseTask (pre.map taskToJson ++ bad :: post.map taskToJson) = none := by
  induction pre with
  | nil => simp [mapOption, h]
  | cons p ps ih => simp [mapOption, parseTask_taskToJson, ih]

theorem parseGantt_badTask (title : List Char) (pre post : List GanttTask) (bad : Json)
    (h : parseTask bad = none) :
    parseGantt (Json.obj [(("title".data), Json.str title),
      (("tasks".data), Json.arr (pre.map taskToJson ++ bad :: post.map taskToJson))]) =
      none := by
  simp [parseGantt, reqField, Json.getField, List.lookup, asStr, asArr,
    mapOption_parseTask_bad _ _ _ h]

theorem lookup_append_of_ne {β : Type} (A : List (Nat × β)) (i : Nat) (c : β) (k : Nat)
    (h : k ≠ i) : List.lookup k (A ++ [(i, c)]) = List.lookup k A := by
  induction A with
  | nil =>
    have hbeq : (k == i) = false := beq_eq_false_iff_ne.mpr h
    simp [List.lookup, hbeq]
  | cons p A ih =>
    obtain ⟨a, b⟩ := p
    show List.lookup k ((a, b) :: (A ++ [(i, c)])) = _
    rw [List.lookup, List.lookup]
    cases hk : (k == a) with
    | true => rfl
    | false => exact ih

theorem lookup_append_self {β : Type} (A : List (Nat × β)) (i : Nat) (c : β)
    (h : ∀ p ∈ A, p.1 ≠ i) : List.lookup i (A ++ [(i, c)]) = some c := by
  induction A with
  | nil => simp [List.lookup]
  | cons p A ih =>
    obtain ⟨a, b⟩ := p
    have ha : a ≠ i := h (a, b) (List.mem_cons_self _ _)
    have hbeq : (i == a) = false := beq_eq_false_iff_ne.mpr (fun he => ha he.symm)
    show List.lookup i ((a, b) :: (A ++ [(i, c)])) = some c
    rw [List.lookup, hbeq]
    exact ih (fun p hp => h p (List.mem_cons_of_mem _ hp))

theorem arcSpans_pieArcsGo {K : Type} [LinearOrderedField K] (k : K) (vs : List K) :
    ∀ a : K, arcSpans (pieArcsGo k a vs) = vs.map (fun v => if 0 < v then v * k else 0) := by
  induction vs with
  | nil => intro a; rfl
  | cons v vs ih =>
    intro a
    show (a + (if 0 < v then v * k else 0) - a) :: arcSpans (pieArcsGo k _ vs) = _
    rw [ih, add_sub_cancel_left]
    rfl

/-- C1 (counterexample): the round-trip is *not* universal over
well-formed JSON values.  For the non-object value `42`, the greedy
brace-to-brace match finds no braces in `stringify 42 = "42"`, so the
route's normalization fails instead of returning `42`. -/
theorem c1_counterexample :
    normalizeResponse (stringify (Json.num 42)) ≠ some (Json.num 42) := by
  intro h
  rw [show normalizeResponse (stringify (Json.num 42)) = none from rfl] at h
  exact Option.noConfusion h

/-- C1 (amended): the extraction is the greedy brace-to-brace match of
the response text followed by `JSON.parse`; the round trip holds for
every *object* value `x`: `normalize (stringify x) = x`, and the same
with the serialization wrapped in a ```json code fence.  It is not
universal over arbitrary JSON values: the counterexample shows it
failing at the number `42`, whose serialization contains no brace. -/
theorem c1_normalizer_roundtrip (fs : List (List Char × Json)) :
    normalizeResponse (stringify (Json.obj fs)) = some (Json.obj fs) ∧
    normalizeResponse (fenceWrap (stringify (Json.obj fs))) = some (Json.obj fs) :=
  ⟨normalizeResponse_stringify_obj fs, normalizeResponse_fenced_obj fs⟩

/-- C2 (counterexample): the `line` renderer does *not* produce the
neutral empty state on empty data — `LineChart` has no empty-data guard
and renders a scene (title, axes with a `NaN` y-domain) even for an
empty `data` array. -/
theorem c2_counterexample :
    lineMount ⟨("t".data), none, none, []⟩ ≠ RenderOutput.emptyState := by
  intro h
  exact RenderOutput.noConfusion h

/-- C2 (amended): the `gantt`, `bar` and `pie` components short-circuit
to the neutral empty state on an empty `tasks`/`data` sequence (and the
render path is total — no exception), but the `line` and `flow`
components render unconditionally, producing a scene rather than the
empty state even on empty input (the line y-domain degenerates to `NaN`,
modelled as a `none` upper bound). -/
theorem c2_empty_render :
    (∀ d : GanttChartData, d.tasks = [] → ganttMount d = .emptyState) ∧
    (∀ d : BarChartData, d.data = [] → barMount d = .emptyState) ∧
    (∀ d : PieChartData, d.data = [] → pieMount d = .emptyState) ∧
    (∀ d : BarChartData, lineMount d = .scene (renderLineModel d)) ∧
    (∀ d : FlowChartData, flowMount d = .scene ⟨d.title, d.nodes.length, d.links.length⟩) ∧
    (∀ d : BarChartData, d.data = [] → (renderLineModel d).yDomainMax = none) := by
  refine ⟨?_, ?_, ?_, fun d => rfl, fun d => rfl, ?_⟩
  · intro d hd
    simp [ganttMount, hd]
  · intro d hd
    simp [barMount, hd]
  · intro d hd
    simp [pieMount, hd]
  · intro d hd
    simp [renderLineModel, hd, List.max?]

/-- C2 (witness). -/
theorem c2_empty_render_witness :
    ganttMount ⟨("t".data), []⟩ = .emptyState ∧
    (renderLineModel ⟨("t".data), none, none, []⟩).yDomainMax = none :=
  ⟨c2_empty_render.1 ⟨("t".data), []⟩ rfl,
   c2_empty_render.2.2.2.2.2 ⟨("t".data), none, none, []⟩ rfl⟩

theorem validateChart_gantt (j : Json) :
    validateChart ("gantt".data) j =
      (match parseGantt j with
       | some g => .ok (ganttToJson g)
       | none => .error .schemaError) := by
  unfold validateChart
  rw [if_pos rfl]

/-- C3: validating a canonical `GanttChartData` value as chart type
`gantt` succeeds and returns a value deep-equal to the input, while
removing any required field (the `title`, or the `id`/`name`/`start`/
`end` of any task) makes validation fail with the schema error. -/
theorem c3_gantt_validation (g : GanttChartData) :
    validateChart ("gantt".data) (ganttToJson g) = .ok (ganttToJson g) ∧
    validateChart ("gantt".data) (removeKey (ganttToJson g) ("title".data)) =
      .error .schemaError ∧
    (∀ key ∈ [("id".data), ("name".data), ("start".data), ("end".data)],
      ∀ pre t post, g.tasks = pre ++ t :: post →
        validateChart ("gantt".data)
          (Json.obj [(("title".data), Json.str g.title),
            (("tasks".data), Json.arr
              (pre.map taskToJson ++ removeKey (taskToJson t) key :: post.map taskToJson))]) =
          .error .schemaError) := by
  refine ⟨?_, ?_, ?_⟩
  · rw [validateChart_gantt, parseGantt_ganttToJson]
  · rw [validateChart_gantt, parseGantt_removeTitle]
  · intro key hk pre t post _
    rw [validateChart_gantt, parseGantt_badTask _ _ _ _ (parseTask_removeKey t key hk)]

/-- C3 (witness). -/
theorem c3_gantt_validation_witness :
    validateChart ("gantt".data)
      (ganttToJson ⟨("t".data), [⟨1, ("A".data), ("2025-01-01".data),
        ("2025-01-02".data), none, none⟩]⟩) =
      .ok (ganttToJson ⟨("t".data), [⟨1, ("A".data), ("2025-01-01".data),
        ("2025-01-02".data), none, none⟩]⟩) ∧
    validateChart ("gantt".data)
      (Json.obj [(("title".data), Json.str ("t".data)),
        (("tasks".data), Json.arr
          ([].map taskToJson ++ removeKey (taskToJson ⟨1, ("A".data), ("2025-01-01".data),
            ("2025-01-02".data), none, none⟩) ("id".data) :: [].map taskToJson))]) =
      .error .schemaError :=
  ⟨(c3_gantt_validation _).1,
   (c3_gantt_validation ⟨("t".data), [⟨1, ("A".data), ("2025-01-01".data),
      ("2025-01-02".data), none, none⟩]⟩).2.2 ("id".data) (by simp) [] _ [] rfl⟩

/-- C4 (counterexample): a task whose `start` is the *empty* string is
*accepted* by the schema — `start: z.string()` has no nonemptiness
check — contradicting the claim that empty-string dates are rejected. -/
theorem c4_counterexample :
    validateChart ("gantt".data)
      (ganttToJson ⟨("t".data), [⟨1, ("A".data), [], ("2025-01-02".data), none, none⟩]⟩) =
      .ok (ganttToJson ⟨("t".data), [⟨1, ("A".data), [], ("2025-01-02".data), none, none⟩]⟩) := by
  rw [validateChart_gantt, parseGantt_ganttToJson]

/-- C4 (amended): the Gantt date fields `start` and `end` are validated
only as strings: *every* string — empty included, and regardless of
whether it parses as a calendar date — passes the task schema, and a
non-string value in `start` fails it. -/
theorem c4_dates_are_plain_strings :
    (∀ (start end_ : List Char) (i : Int) (nm : List Char)
      (deps : Option (List Int)) (cat : Option (List Char)),
      parseTask (taskToJson ⟨i, nm, start, end_, deps, cat⟩) =
        some ⟨i, nm, start, end_, deps, cat⟩) ∧
    (∀ (i : Int) (nm en : List Char) (n : Int),
      parseTask (Json.obj [(("id".data), Json.num i), (("name".data), Json.str nm),
        (("start".data), Json.num n), (("end".data), Json.str en)]) = none) := by
  constructor
  · intro start end_ i nm deps cat
    exact parseTask_taskToJson _
  · intro i nm en n
    rfl

/-- C5: every chart-type tag outside the five known ones is rejected by
the dispatch with the unsupported-chart-type error (the branch that
returns HTTP 400 with the unsupported-type message), and in particular
`validateChart "unknown" (obj [])` fails that way. -/
theorem c5_unsupported_type :
    (∀ ty : List Char, ty ∉ chartTypeEnum →
      ∀ j : Json, validateChart ty j = .error .unsupportedType) ∧
    validateChart ("unknown".data) (Json.obj []) = .error .unsupportedType := by
  constructor
  · intro ty hty j
    have h1 : ¬ty = ("gantt".data) := fun he => hty (by rw [he]; simp [chartTypeEnum])
    have h2 : ¬ty = ("bar".data) := fun he => hty (by rw [he]; simp [chartTypeEnum])
    have h3 : ¬ty = ("pie".data) := fun he => hty (by rw [he]; simp [chartTypeEnum])
    have h4 : ¬ty = ("line".data) := fun he => hty (by rw [he]; simp [chartTypeEnum])
    have h5 : ¬ty = ("flow".data) := fun he => hty (by rw [he]; simp [chartTypeEnum])
    unfold validateChart
    rw [if_neg h1, if_neg h2, if_neg h3, if_neg h4, if_neg h5]
  · rfl

/-- C5 (witness). -/
theorem c5_unsupported_type_witness :
    validateChart ("mindmap".data) Json.null = .error .unsupportedType :=
  c5_unsupported_type.1 ("mindmap".data) (by decide) Json.null

/-- C7: for chart type `flow` the dispatch is the identity on the parsed
JSON — no schema is applied, so flow data is returned unchanged and can
never fail with a schema validation error. -/
theorem c7_flow_passthrough : ∀ j : Json, validateChart ("flow".data) j = .ok j := by
  intro j
  rfl

/-- C8: chart-store invariants.  Under the store invariant, `createChart`
assigns the current counter value as a fresh id strictly greater than
every stored chart's id, stamps `createdAt`, and afterwards the chart is
retrievable by its id and listed; every other id resolves exactly as
before (nothing is mutated or deleted), the counter advances by one, and
a fresh store starts counting at 1. -/
theorem c8_store_invariants (s : MemStorage) (hwf : s.WF) (now : Nat) (c : InsertChart) :
    (s.createChart now c).1.id = s.currentChartId ∧
    (∀ ch ∈ s.getAllCharts, ch.id < (s.createChart now c).1.id) ∧
    (s.createChart now c).1.createdAt = now ∧
    (s.createChart now c).2.getChart (s.createChart now c).1.id =
      some (s.createChart now c).1 ∧
    (s.createChart now c).1 ∈ (s.createChart now c).2.getAllCharts ∧
    (s.createChart now c).2.getAllCharts = s.getAllCharts ++ [(s.createChart now c).1] ∧
    (∀ k, k ≠ (s.createChart now c).1.id →
      (s.createChart now c).2.getChart k = s.getChart k) ∧
    (s.createChart now c).2.WF ∧
    (s.createChart now c).2.currentChartId = s.currentChartId + 1 ∧
    MemStorage.init.currentChartId = 1 := by
  refine ⟨rfl, ?_, rfl, ?_, ?_, ?_, ?_, ?_, rfl, rfl⟩
  · intro ch hch
    obtain ⟨p, hp, rfl⟩ := List.mem_map.mp hch
    exact (hwf p hp).2
  · show List.lookup s.currentChartId (s.charts ++ [(s.currentChartId, _)]) = _
    apply lookup_append_self
    intro p hp
    have := hwf p hp
    omega
  · show _ ∈ (s.charts ++ [_]).map _
    simp
    exact Or.inr rfl
  · show (s.charts ++ [_]).map _ = s.charts.map _ ++ [_]
    simp
    rfl
  · intro k hk
    show List.lookup k (s.charts ++ [(s.currentChartId, _)]) = List.lookup k s.charts
    exact lookup_append_of_ne _ _ _ _ hk
  · intro p hp
    rcases List.mem_append.mp hp with h | h
    · obtain ⟨h1, h2⟩ := hwf p h
      exact ⟨h1, by show p.2.id < s.currentChartId + 1; omega⟩
    · simp only [List.mem_singleton] at h
      subst h
      exact ⟨rfl, by show s.currentChartId < s.currentChartId + 1; omega⟩

/-- C8 (witness). -/
theorem c8_store_invariants_witness :
    (MemStorage.init.createChart 5 ⟨("t".data), ("gantt".data), Json.obj [], none⟩).1.id = 1 ∧
    (MemStorage.init.createChart 5
      ⟨("t".data), ("gantt".data), Json.obj [], none⟩).1.createdAt = 5 :=
  ⟨(c8_store_invariants MemStorage.init (fun p hp => absurd hp (List.not_mem_nil p)) 5
      ⟨("t".data), ("gantt".data), Json.obj [], none⟩).1,
   (c8_store_invariants MemStorage.init (fun p hp => absurd hp (List.not_mem_nil p)) 5
      ⟨("t".data), ("gantt".data), Json.obj [], none⟩).2.2.1⟩

/-- C9: save atomicity.  When the declared chart type's schema rejects
the payload, `POST /api/charts` answers 400 and the store is exactly the
one before the request — no chart inserted, counter untouched — because
validation runs strictly before `createChart`. -/
theorem c9_save_atomicity (s : MemStorage) (now : Nat) (title ty : List Char) (data : Json)
    (h : (ty = ("gantt".data) ∧ parseGantt data = none) ∨
         (ty = ("bar".data) ∧ parseBar data = none) ∨
         (ty = ("pie".data) ∧ parsePie data = none) ∨
         (ty = ("line".data) ∧ parseBar data = none)) :
    postCharts s now title ty data = (400, s) := by
  rcases h with ⟨rfl, hp⟩ | ⟨rfl, hp⟩ | ⟨rfl, hp⟩ | ⟨rfl, hp⟩
  · unfold postCharts
    rw [if_pos rfl, hp]
  · unfold postCharts
    rw [if_neg (by decide), if_pos rfl, hp]
  · unfold postCharts
    rw [if_neg (by decide), if_neg (by decide), if_pos rfl, hp]
  · unfold postCharts
    rw [if_neg (by decide), if_neg (by decide), if_neg (by decide), if_pos rfl, hp]

/-- C9 (witness). -/
theorem c9_save_atomicity_witness :
    postCharts MemStorage.init 0 ("t".data) ("gantt".data) (Json.obj []) =
      (400, MemStorage.init) :=
  c9_save_atomicity MemStorage.init 0 ("t".data) ("gantt".data) (Json.obj [])
    (Or.inl ⟨rfl, rfl⟩)

/-- C10: a generate request without a `chartType` field is accepted by
the request schema with the default value `"gantt"` supplied — it is
processed as a Gantt generation, not rejected. -/
theorem c10_default_chart_type (j : Json) (p : List Char)
    (hprompt : j.getField ("prompt".data) = some (Json.str p))
    (hp : p ≠ [])
    (hct : j.getField ("chartType".data) = none) :
    parseGeminiRequest j = some ⟨p, ("gantt".data)⟩ := by
  have hlen : ¬p.length < 1 := by
    cases p with
    | nil => exact absurd rfl hp
    | cons a as => simp
  simp [parseGeminiRequest, reqField, hprompt, hct, asStr, hlen, hp]

/-- C10 (witness). -/
theorem c10_default_chart_type_witness :
    parseGeminiRequest (Json.obj [(("prompt".data), Json.str ("hi".data))]) =
      some ⟨("hi".data), ("gantt".data)⟩ :=
  c10_default_chart_type _ ("hi".data) rfl (by decide) rfl

/-- C6: pie layout.  For nonempty data with positive values, the arc
spans produced by the `d3.pie` layout are, in input order (no reordering
by magnitude — `sort(null)`), exactly `2π * value / sum(values)`, the
first slice starts at the fixed origin angle `0`, and an explicit
non-empty per-point `color` overrides the ordinal palette.  On the data
`[(A, 25), (B, 75)]` the two spans sum to exactly `2π` and are in ratio
`1 : 3`. -/
theorem c6_pie_layout :
    (∀ d : PieChartData, d.data ≠ [] → (∀ p ∈ d.data, 0 < p.value) →
      arcSpans (renderPieArcs ℝ (2 * Real.pi) d) =
        d.data.map (fun p => 2 * Real.pi * (p.value : ℝ) /
          ((d.data.map (fun q => ((q.value : ℝ)))).sum)) ∧
      (renderPieArcs ℝ (2 * Real.pi) d).head?.map (fun a => a.1) = some 0) ∧
    (∀ (domain : List (List Char)) (p : PieChartDataPoint) (c : List Char),
      p.color = some c → c ≠ [] → colorAccessor domain p = c) ∧
    ((arcSpans (renderPieArcs ℝ (2 * Real.pi)
        ⟨("t".data), [⟨("A".data), 25, none⟩, ⟨("B".data), 75, none⟩]⟩)).sum =
      2 * Real.pi ∧
     ∃ s1 s2, arcSpans (renderPieArcs ℝ (2 * Real.pi)
        ⟨("t".data), [⟨("A".data), 25, none⟩, ⟨("B".data), 75, none⟩]⟩) = [s1, s2] ∧
       s2 = 3 * s1) := by
  have hconc : renderPieArcs ℝ (2 * Real.pi)
      ⟨("t".data), [⟨("A".data), 25, none⟩, ⟨("B".data), 75, none⟩]⟩ =
      pieArcsGo ((2 * Real.pi - 0) / 100) 0 [(25 : ℝ), 75] := by
    unfold renderPieArcs pieArcs
    norm_num [List.filter]
  have hspans : arcSpans (pieArcsGo ((2 * Real.pi - 0) / 100) 0 [(25 : ℝ), 75]) =
      [25 * ((2 * Real.pi - 0) / 100), 75 * ((2 * Real.pi - 0) / 100)] := by
    rw [arcSpans_pieArcsGo]
    norm_num
  refine ⟨?_, ?_, ?_, ?_⟩
  · intro d hne hpos
    constructor
    · unfold renderPieArcs pieArcs
      rw [arcSpans_pieArcsGo]
      have hfilter : (d.data.map (fun p => ((p.value : ℝ)))).filter
          (fun v => decide (0 < v)) = d.data.map (fun p => (p.value : ℝ)) := by
        apply List.filter_eq_self.mpr
        intro a ha
        obtain ⟨p, hp, rfl⟩ := List.mem_map.mp ha
        have hv := hpos p hp
        simp only [decide_eq_true_eq]
        exact_mod_cast hv
      rw [hfilter, List.map_map]
      apply List.map_congr_left
      intro p hp
      have hv : (0 : ℝ) < (p.value : ℝ) := by exact_mod_cast hpos p hp
      simp only [Function.comp_apply]
      rw [if_pos hv, sub_zero]
      ring
    · cases hd : d.data with
      | nil => exact absurd hd hne
      | cons p ps =>
        unfold renderPieArcs pieArcs
        rw [hd]
        rfl
  · intro domain p c hc hcne
    simp [colorAccessor, hc, hcne]
  · rw [hconc, hspans]
    show 25 * ((2 * Real.pi - 0) / 100) + (75 * ((2 * Real.pi - 0) / 100) + 0) =
      2 * Real.pi
    field_simp
    ring
  · exact ⟨25 * ((2 * Real.pi - 0) / 100), 75 * ((2 * Real.pi - 0) / 100),
      by rw [hconc, hspans], by ring⟩

/-- C6 (witness). -/
theorem c6_pie_layout_witness :
    arcSpans (renderPieArcs ℝ (2 * Real.pi)
      ⟨("t".data), [⟨("A".data), 25, none⟩, ⟨("B".data), 75, none⟩]⟩) =
      ([⟨("A".data), 25, none⟩, ⟨("B".data), 75, none⟩] : List PieChartDataPoint).map
        (fun p => 2 * Real.pi * (p.value : ℝ) /
          (([⟨("A".data), 25, none⟩, ⟨("B".data), 75, none⟩] :
            List PieChartDataPoint).map (fun q => ((q.value : ℝ)))).sum) ∧
    colorAccessor [("A".data)] ⟨("A".data), 25, some ("#FF0000".data)⟩ = ("#FF0000".data) :=
  ⟨(c6_pie_layout.1 ⟨("t".data), [⟨("A".data), 25, none⟩, ⟨("B".data), 75, none⟩]⟩
      (by simp) (by intro p hp; simp only [List.mem_cons, List.mem_singleton, List.not_mem_nil, or_false] at hp; rcases hp with rfl | rfl <;> norm_num)).1,
   c6_pie_layout.2.1 [("A".data)] ⟨("A".data), 25, some ("#FF0000".data)⟩
     ("#FF0000".data) rfl (by decide)⟩
